import Mathlib

set_option maxRecDepth 8000

set_option maxHeartbeats 1000000

/-!
# Formal model of the Sudoku Master Pro puzzle engine

Shallow embedding of the puzzle engine in `src/main.py`: the solved-grid
generator (`SudokuGame.generate_sudoku`), the puzzle-session state
(`SudokuGame` fields plus the `SudokuMaster` widget state that the save file
records), the player operations (`cell_clicked`, `number_clicked`,
`show_hint`), the queries (`is_valid_move`, `get_hint`, `_is_fully_solved`,
`check_solution`, `get_filled_count`) and persistence (`save_game`,
`load_game`).  Randomness (`random.sample`) is modelled by passing the sampled
permutation / coordinate list as an explicit parameter, universally
quantified over all outcomes in the theorems.
-/

/-! ## Definitions -/

/-- `pattern(r, c) = (BASE * (r % BASE) + r // BASE + c) % SIDE` with
`BASE = 3`, `SIDE = 9`: the inner helper of `SudokuGame.generate_sudoku`. -/
def pattern (r c : Nat) : Nat := (3 * (r % 3) + r / 3 + c) % 9

/-- `[g * BASE + x for g in shuffle(r_base) for x in shuffle(r_base)]`: the row
(resp. column) index list built in `generate_sudoku`.  `gl` is the outcome of
the outer `shuffle(range(3))`; `il g` is the outcome of the inner
`shuffle(range(3))` that Python evaluates afresh while the outer variable
is `g`. -/
def bandShuffle (gl : List Nat) (il : Nat → List Nat) : List Nat :=
  gl.flatMap (fun g => (il g).map (fun x => g * 3 + x))

/-- `SudokuGame.generate_sudoku`:
`board = [[nums[pattern(r, c)] for c in cols] for r in rows]` where
`rows`/`cols` are band-structured shuffles of `0..8` and `nums` is a shuffle
of `1..9`.  `nums[i]` always has `i = pattern r c < 9`, so the `getD` default
is never taken. -/
def generate_sudoku (glr : List Nat) (ilr : Nat → List Nat)
    (glc : List Nat) (ilc : Nat → List Nat) (nums : List Nat) : List (List Nat) :=
  (bandShuffle glr ilr).map (fun r =>
    (bandShuffle glc ilc).map (fun c => nums.getD (pattern r c) 0))

/-- The digit sequence `list(range(1, SIDE + 1))`. -/
def digits : List Nat := [1, 2, 3, 4, 5, 6, 7, 8, 9]

/-- Row `i` of a grid held as a list of rows. -/
def rowOf (b : List (List Nat)) (i : Nat) : List Nat := b.getD i []

/-- Column `j` of a grid held as a list of rows. -/
def colOf (b : List (List Nat)) (j : Nat) : List Nat :=
  (List.range 9).map (fun i => (b.getD i []).getD j 0)

/-- The 3×3 box of a grid with band row `bR` and stack column `bC`, read in
row-major order. -/
def boxOf (b : List (List Nat)) (bR bC : Nat) : List Nat :=
  (List.range 3).flatMap (fun s =>
    (List.range 3).map (fun t => (b.getD (3 * bR + s) []).getD (3 * bC + t) 0))

/-- Full Sudoku validity: every row, every column and every 3×3 box is a
rearrangement of the digits 1..9 (hence contains each exactly once). -/
def validGrid (b : List (List Nat)) : Prop :=
  (∀ i < 9, (rowOf b i).Perm digits) ∧ (∀ j < 9, (colOf b j).Perm digits) ∧
    (∀ bR < 3, ∀ bC < 3, (boxOf b bR bC).Perm digits)

abbrev Coord : Type := Fin 9 × Fin 9

/-- Row-major enumeration of all 81 coordinates (`all_cells` /
the nested `for i in range(9): for j in range(9)` loops). -/
def allCoords : List Coord :=
  (List.finRange 9).flatMap (fun r => (List.finRange 9).map (fun c => (r, c)))

/-- Row-major rank of a coordinate: `(r, c)` comes before `(r', c')` in the
scan order iff its rank `9 * r + c` is smaller. -/
def rmRank (p : Coord) : Nat := 9 * p.1.val + p.2.val

/-- One game session: the `SudokuGame` fields (`solution_board` may be `None`
after loading a save without a solution, hence `Option`; `game_board` cells
hold a digit or the empty string `""`, modelled as `Option Nat`;
`immutable_cells` is a set of coordinates; counters) together with the
`SudokuMaster` widget state that the save file records (`seconds`,
`is_timer_running`, the selected cell and the per-cell `is_error` / `is_hint`
flags of the `SudokuCell` widgets). -/
@[ext]

structure GState where
  solution : Option (Coord → Nat)
  board : Coord → Option Nat
  immutable : Finset Coord
  mistakes : Nat
  hints_used : Nat
  empty_cells : Nat
  seconds : Nat
  is_timer_running : Bool
  selected : Option Coord
  is_error : Coord → Bool
  is_hint : Coord → Bool

/-- `self.max_mistakes = 5` from `SudokuGame.__init__`. -/
def max_mistakes : Nat := 5

/-- The solution value at `p`, if a solution grid is present. -/
def solAt (s : GState) (p : Coord) : Option Nat :=
  s.solution.map (fun sol => sol p)

/-- `SudokuGame.create_game_board(empty_cells)` combined with the board /
selection / flag reset performed by `SudokuMaster.new_game` and
`update_board`.  `sol` is the grid returned by `generate_sudoku` and `mask`
the outcome of `random.sample(all_cells, min(empty_cells, 81))`. -/
def create_game_board (sol : Coord → Nat) (mask : List Coord) (ec : Nat) : GState :=
  { solution := some sol
    board := fun p => if p ∈ mask then none else some (sol p)
    immutable := Finset.univ \ mask.toFinset
    mistakes := 0
    hints_used := 0
    empty_cells := ec
    seconds := 0
    is_timer_running := false
    selected := none
    is_error := fun _ => false
    is_hint := fun _ => false }

/-- `SudokuGame.is_valid_move(row, col, num)`: `False` when no solution grid
is present or the cell is immutable, otherwise numeric equality
`int(solution_board[row][col]) == int(num)`. -/
def is_valid_move (s : GState) (p : Coord) (num : Nat) : Bool :=
  match s.solution with
  | none => false
  | some sol => if p ∈ s.immutable then false else sol p == num

/-- `str(board_cell) == str(solution_cell)` for a board cell holding either a
digit or the empty string `""`: `str("")` never equals the decimal rendering
of a digit, and for two integers the rendered strings are equal iff the
integers are. -/
def str_cell_eq (v : Option Nat) (solv : Nat) : Bool :=
  match v with
  | some m => m == solv
  | none => false

/-- `SudokuMaster._is_fully_solved`: `False` when no solution grid is
present, otherwise `str(game_board[i][j]) == str(solution_board[i][j])` for
all 81 cells. -/
def _is_fully_solved (s : GState) : Bool :=
  match s.solution with
  | none => false
  | some sol => allCoords.all (fun p => str_cell_eq (s.board p) (sol p))

/-- The incorrect-cell list computed by `SudokuMaster.check_solution`: all
non-immutable coordinates, in row-major order, whose board value does not
`str`-equal the solution value.  (`sol` is the session's solution grid; the
Python code reads it from `self.game.solution_board`.) -/
def check_incorrect (s : GState) (sol : Coord → Nat) : List Coord :=
  allCoords.filter (fun p => !(decide (p ∈ s.immutable)) && !(str_cell_eq (s.board p) (sol p)))

/-- `SudokuGame.get_filled_count`: the number of cells holding a value
(`game_board[i][j] != ""`). -/
def get_filled_count (s : GState) : Nat :=
  allCoords.countP (fun p => (s.board p).isSome)

/-- `SudokuGame.get_hint`: scan `i = 0..8`, `j = 0..8` in row-major order and
return the first empty cell together with `int(solution_board[i][j])`; `None`
when no cell is empty.  (`sol` is the session's solution grid.) -/
def get_hint (board : Coord → Option Nat) (sol : Coord → Nat) : Option (Coord × Nat) :=
  (allCoords.find? (fun p => (board p).isNone)).map (fun p => (p, sol p))

/-- `SudokuMaster.cell_clicked(row, col)`: select the cell unless it is
immutable, in which case the selection is cleared. -/
def cell_clicked (s : GState) (p : Coord) : GState :=
  if p ∈ s.immutable then { s with selected := none }
  else { s with selected := some p }

/-- `SudokuMaster.number_clicked(number)`: `number = none` models the erase
button / Backspace (`""`), `some v` a digit button.  With no selected cell
nothing happens.  Otherwise the cell's error/hint flags are reset; erasing
clears the cell; a digit is written unconditionally, counting a mistake and
setting the error flag when `is_valid_move` is false.  Afterwards, if the
board is fully solved the timer is stopped.  (Status messages, the
game-over warning box shown when `mistakes >= max_mistakes`, and the
congratulation dialog change no session state and are not modelled.) -/
def number_clicked (s : GState) (number : Option Nat) : GState :=
  match s.selected with
  | none => s
  | some p =>
    let s1 : GState :=
      { s with is_error := Function.update s.is_error p false
               is_hint := Function.update s.is_hint p false }
    let s2 : GState :=
      match number with
      | none => { s1 with board := Function.update s1.board p none }
      | some v =>
        if is_valid_move s1 p v then
          { s1 with board := Function.update s1.board p (some v) }
        else
          { s1 with board := Function.update s1.board p (some v)
                    mistakes := s1.mistakes + 1
                    is_error := Function.update s1.is_error p true }
    if _is_fully_solved s2 then { s2 with is_timer_running := false } else s2

/-- The state produced by the selected-cell branch of `number_clicked`
before the solved check: flags of the selected cell reset, the cell written
(erased, or set to the digit, counting a mistake and setting the error flag
when the move is invalid). -/
def nc_core (s : GState) (p : Coord) (n : Option Nat) : GState :=
  match n with
  | none =>
    { s with board := Function.update s.board p none
             is_error := Function.update s.is_error p false
             is_hint := Function.update s.is_hint p false }
  | some v =>
    if is_valid_move s p v then
      { s with board := Function.update s.board p (some v)
               is_error := Function.update s.is_error p false
               is_hint := Function.update s.is_hint p false }
    else
      { s with board := Function.update s.board p (some v)
               mistakes := s.mistakes + 1
               is_error := Function.update (Function.update s.is_error p false) p true
               is_hint := Function.update s.is_hint p false }

/-- Writing a hint value into cell `p`: `set_value(correct_value)` (which
resets both flags), then `set_hint(True)`, then `hints_used += 1`. -/
def place_hint (s : GState) (sol : Coord → Nat) (p : Coord) : GState :=
  { s with board := Function.update s.board p (some (sol p))
           is_error := Function.update s.is_error p false
           is_hint := Function.update s.is_hint p true
           hints_used := s.hints_used + 1 }

/-- `SudokuMaster.show_hint`: if a cell is selected and empty, reveal it
there; otherwise reveal the first empty cell of the row-major scan
(`get_hint`) and move the selection to it; with no empty cell left, no state
changes.  When `solution_board` is `None` the Python code raises inside
`int(self.game.solution_board[...])` before mutating any state, which we
model as leaving the state unchanged. -/
def show_hint (s : GState) : GState :=
  match s.solution with
  | none => s
  | some sol =>
    let scan : GState :=
      match get_hint s.board sol with
      | some (p, _) => { place_hint s sol p with selected := some p }
      | none => s
    match s.selected with
    | some p => if (s.board p).isNone then place_hint s sol p else scan
    | none => scan

/-- The spec-level `attempt_place(coord, value)`: clicking cell `p` and then
pressing digit `v`.  The boolean is the Correct/Incorrect outcome reported in
the status message, i.e. `is_valid_move` after the click. -/
def attempt_place (s : GState) (p : Coord) (v : Nat) : GState × Bool :=
  (number_clicked (cell_clicked s p) (some v), is_valid_move (cell_clicked s p) p v)

/-- The spec-level `clear(coord)`: clicking cell `p` and pressing erase. -/
def clear_cell (s : GState) (p : Coord) : GState :=
  number_clicked (cell_clicked s p) none

/-- One player interaction: clicking a cell, pressing a number/erase button,
or asking for a hint. -/
inductive Op : Type where
  | click (p : Coord) : Op
  | num (v : Option Nat) : Op
  | hint : Op

/-- Apply one interaction to the session state. -/
def step (s : GState) : Op → GState
  | Op.click p => cell_clicked s p
  | Op.num v => number_clicked s v
  | Op.hint => show_hint s

/-- Apply a finite sequence of interactions. -/
def run (s : GState) (ops : List Op) : GState := ops.foldl step s

/-- Session well-formedness: a solution grid is present, every immutable
cell's board value equals the solution value, and the selected cell (if any)
is not immutable (`cell_clicked` never selects an immutable cell). -/
def SessionInv (s : GState) : Prop :=
  s.solution.isSome = true ∧
    (∀ p ∈ s.immutable, s.board p = solAt s p) ∧
    (∀ p : Coord, s.selected = some p → p ∉ s.immutable)

/-- A 9×9 list-of-rows rendering of a per-coordinate table, as written into
the JSON payload (`[[... for c in range(9)] for r in range(9)]`). -/
def toRows {α : Type} (f : Coord → α) : List (List α) :=
  (List.finRange 9).map (fun r => (List.finRange 9).map (fun c => f (r, c)))

/-- Reading a per-coordinate table back from a 9×9 list of rows
(`value[r][c]`; payloads produced by `save_game` always have 9 rows of 9, so
the defaults are never taken). -/
def ofRows {α : Type} (d : α) (l : List (List α)) : Coord → α :=
  fun p => (l.getD p.1.val []).getD p.2.val d

/-- `sorted(self.game.immutable_cells)` as written by `save_game`: the
coordinate pairs of the set in lexicographic order.  Since every member lies
in `[0,8] × [0,8]`, the sorted list equals the row-major enumeration of all
coordinates filtered by membership. -/
def sorted_immutable (S : Finset Coord) : List (Nat × Nat) :=
  (allCoords.filter (fun p => p ∈ S)).map (fun p => (p.1.val, p.2.val))

/-- An `(int(x[0]), int(x[1]))` pair read from the `immutable_cells` payload
list.  Entries outside `[0,8] × [0,8]` (never produced by `save_game`) can
match no widget coordinate and are dropped. -/
def decodeCoord (x : Nat × Nat) : Option Coord :=
  if h : x.1 < 9 ∧ x.2 < 9 then some (⟨x.1, h.1⟩, ⟨x.2, h.2⟩) else none

/-- The JSON payload written by `SudokuMaster.save_game` and read by
`SudokuMaster.load_game`.  A `none` in `solution_board` / `game_board` /
`cells_meta` models a missing key or JSON `null` (`data.get(...)` treats both
alike); for the remaining keys `load_game` substitutes a default, so a
missing key is modelled by that default value. -/
structure SaveData where
  solution_board : Option (List (List Nat))
  game_board : Option (List (List (Option Nat)))
  immutable_cells : List (Nat × Nat)
  mistakes : Nat
  hints_used : Nat
  empty_cells : Nat
  seconds : Nat
  is_timer_running : Bool
  cells_meta : Option (List (List (Bool × Bool)))
deriving DecidableEq

/-- `SudokuMaster.save_game` (the payload construction; file-dialog and I/O
are outside the engine). -/
def save_game (s : GState) : SaveData :=
  { solution_board := s.solution.map (fun sol => toRows sol)
    game_board := some (toRows s.board)
    immutable_cells := sorted_immutable s.immutable
    mistakes := s.mistakes
    hints_used := s.hints_used
    empty_cells := s.empty_cells
    seconds := s.seconds
    is_timer_running := s.is_timer_running
    cells_meta := some (toRows (fun p => (s.is_error p, s.is_hint p))) }

/-- The per-cell `(is_error, is_hint)` flags restored by `load_game`: taken
from `cells_meta` when present (a non-9×9 table yields `False` defaults, as
Python's falsy check does for `[]`), otherwise `False`. -/
def meta_flags (cm : Option (List (List (Bool × Bool)))) (p : Coord) : Bool × Bool :=
  match cm with
  | some m => (m.getD p.1.val []).getD p.2.val (false, false)
  | none => (false, false)

/-- `SudokuMaster.load_game` applied to an already-parsed payload (file
selection, I/O and JSON parse failures abort before touching any state).
The Python code first overwrites `solution_board` from the payload, then
checks `game_board`: when it is missing the load aborts with a fatal
`QMessageBox.critical` (the `false` flag) and the partially-updated state is
kept; otherwise every remaining field is replaced and the selection is
cleared. -/
def load_game (s : GState) (d : SaveData) : Bool × GState :=
  let s1 : GState := { s with solution := d.solution_board.map (ofRows 0) }
  match d.game_board with
  | none => (false, s1)
  | some gb =>
    (true,
      { s1 with
          board := ofRows none gb
          immutable := (d.immutable_cells.filterMap decodeCoord).toFinset
          mistakes := d.mistakes
          hints_used := d.hints_used
          empty_cells := d.empty_cells
          seconds := d.seconds
          is_timer_running := d.is_timer_running
          selected := none
          is_error := fun p => (meta_flags d.cells_meta p).1
          is_hint := fun p => (meta_flags d.cells_meta p).2 })

/-- A concrete valid solution grid (the base pattern with identity shuffles). -/
def sampleSol : Coord → Nat := fun p => pattern p.1.val p.2.val + 1

/-- A concrete sampling outcome masking only cell `(0, 0)`. -/
def sampleMask : List Coord := [(0, 0)]

/-- A concrete session: `create_game_board` with the sample solution, the
single-cell mask and a requested `empty_cells` of 1. -/
def sampleState : GState := create_game_board sampleSol sampleMask 1

/-- A payload missing both the mandatory `game_board` field and the optional
`solution_board` field. -/
def missingBoardPayload : SaveData :=
  { solution_board := none
    game_board := none
    immutable_cells := []
    mistakes := 0
    hints_used := 0
    empty_cells := 40
    seconds := 0
    is_timer_running := false
    cells_meta := none }

/-! ## Theorems -/

theorem getD_map_lt {α β : Type} (l : List α) (f : α → β) (i : Nat) (d : β) (d' : α)
    (h : i < l.length) : (l.map f).getD i d = f (l.getD i d') := by
  rw [List.getD_eq_getElem _ _ (by simpa using h), List.getD_eq_getElem _ _ h,
    List.getElem_map]

theorem map_getD_range {α : Type} (l : List α) (d : α) :
    (List.range l.length).map (fun i => l.getD i d) = l := by
  induction l with
  | nil => rfl
  | cons a t ih =>
    rw [List.length_cons, List.range_succ_eq_map, List.map_cons, List.map_map]
    have h2 : ((fun i => (a :: t).getD i d) ∘ Nat.succ) = fun i => t.getD i d := by
      funext i; simp [Function.comp, List.getD_cons_succ]
    rw [h2, ih, List.getD_cons_zero]

theorem flatMap_congr {α β : Type} {l : List α} {f g : α → List β}
    (h : ∀ a ∈ l, f a = g a) : l.flatMap f = l.flatMap g := by
  induction l with
  | nil => rfl
  | cons a t ih =>
    rw [List.flatMap_cons, List.flatMap_cons, h a (by simp),
      ih (fun a ha => h a (by simp [ha]))]

theorem eq_triple_of_length {α : Type} {l : List α} (h : l.length = 3) :
    ∃ x y z, l = [x, y, z] := by
  rcases l with _ | ⟨x, l⟩
  · simp at h
  rcases l with _ | ⟨y, l⟩
  · simp at h
  rcases l with _ | ⟨z, l⟩
  · simp at h
  rcases l with _ | ⟨w, l⟩
  · exact ⟨x, y, z, rfl⟩
  · simp [List.length_cons] at h

theorem getD_lt_three {l : List Nat} (hl : l.Perm [0, 1, 2]) {s : Nat} (hs : s < 3) :
    l.getD s 0 < 3 := by
  have hlen : l.length = 3 := hl.length_eq
  have hmem : l.getD s 0 ∈ l := by
    rw [List.getD_eq_getElem _ _ (by omega)]
    exact List.getElem_mem _
  have h2 := hl.mem_iff.mp hmem
  simp only [List.mem_cons, List.not_mem_nil, or_false] at h2
  rcases h2 with h2 | h2 | h2 <;> omega

theorem getD_lt_nine {l : List Nat} (hl : l.Perm (List.range 9)) {i : Nat} (hi : i < 9) :
    l.getD i 0 < 9 := by
  have hlen : l.length = 9 := by rw [hl.length_eq, List.length_range]
  have hmem : l.getD i 0 ∈ l := by
    rw [List.getD_eq_getElem _ _ (by omega)]
    exact List.getElem_mem _
  exact List.mem_range.mp (hl.mem_iff.mp hmem)

theorem bandShuffle_perm {gl : List Nat} {il : Nat → List Nat}
    (hgl : gl.Perm [0, 1, 2]) (hil : ∀ g ∈ gl, (il g).Perm [0, 1, 2]) :
    (bandShuffle gl il).Perm (List.range 9) := by
  have h1 : (bandShuffle gl il).Perm
      ([0, 1, 2].flatMap (fun g => (il g).map (fun x => g * 3 + x))) :=
    List.Perm.flatMap_right _ hgl
  refine h1.trans ?_
  have h2 : ([0, 1, 2].flatMap (fun g => (il g).map (fun x => g * 3 + x))).Perm
      ([0, 1, 2].flatMap (fun g => [g * 3 + 0, g * 3 + 1, g * 3 + 2])) := by
    refine List.Perm.flatMap_left _ ?_
    intro g hg
    exact (hil g (hgl.mem_iff.mpr hg)).map (fun x => g * 3 + x)
  refine h2.trans ?_
  decide

theorem bandShuffle_block {gl : List Nat} {il : Nat → List Nat}
    (hgl : gl.Perm [0, 1, 2]) (hil : ∀ g ∈ gl, (il g).Perm [0, 1, 2])
    {bR : Nat} (hbR : bR < 3) :
    ∃ g, g < 3 ∧ (il g).Perm [0, 1, 2] ∧
      ∀ s < 3, (bandShuffle gl il).getD (3 * bR + s) 0 = g * 3 + (il g).getD s 0 := by
  obtain ⟨a0, a1, a2, rfl⟩ := eq_triple_of_length hgl.length_eq
  have h0 : (il a0).Perm [0, 1, 2] := hil a0 (by simp)
  have h1 : (il a1).Perm [0, 1, 2] := hil a1 (by simp)
  have h2 : (il a2).Perm [0, 1, 2] := hil a2 (by simp)
  have hI0 : (il a0).length = 3 := by rw [h0.length_eq]; rfl
  have hI1 : (il a1).length = 3 := by rw [h1.length_eq]; rfl
  have hI2 : (il a2).length = 3 := by rw [h2.length_eq]; rfl
  have hl0 : ((il a0).map (fun x => a0 * 3 + x)).length = 3 := by
    rw [List.length_map, h0.length_eq]; rfl
  have hl1 : ((il a1).map (fun x => a1 * 3 + x)).length = 3 := by
    rw [List.length_map, h1.length_eq]; rfl
  have hl2 : ((il a2).map (fun x => a2 * 3 + x)).length = 3 := by
    rw [List.length_map, h2.length_eq]; rfl
  have hmem : ∀ x ∈ ([a0, a1, a2] : List Nat), x < 3 := by
    intro x hx
    have h3 := hgl.mem_iff.mp hx
    simp at h3
    omega
  have hband : bandShuffle [a0, a1, a2] il
      = (il a0).map (fun x => a0 * 3 + x) ++
        ((il a1).map (fun x => a1 * 3 + x) ++
          ((il a2).map (fun x => a2 * 3 + x) ++ [])) := rfl
  interval_cases bR
  · refine ⟨a0, hmem a0 (by simp), h0, fun s hs => ?_⟩
    rw [hband, show 3 * 0 + s = s by omega,
      List.getD_append _ _ _ _ (by rw [hl0]; omega),
      getD_map_lt _ _ _ _ 0 (by rw [hI0]; omega)]
  · refine ⟨a1, hmem a1 (by simp), h1, fun s hs => ?_⟩
    rw [hband, List.getD_append_right _ _ _ _ (by rw [hl0]; omega),
      show 3 * 1 + s - ((il a0).map (fun x => a0 * 3 + x)).length = s by rw [hl0]; omega,
      List.getD_append _ _ _ _ (by rw [hl1]; omega),
      getD_map_lt _ _ _ _ 0 (by rw [hI1]; omega)]
  · refine ⟨a2, hmem a2 (by simp), h2, fun s hs => ?_⟩
    rw [hband, List.getD_append_right _ _ _ _ (by rw [hl0]; omega),
      show 3 * 2 + s - ((il a0).map (fun x => a0 * 3 + x)).length = 3 + s by rw [hl0]; omega,
      List.getD_append_right _ _ _ _ (by rw [hl1]; omega),
      show 3 + s - ((il a1).map (fun x => a1 * 3 + x)).length = s by rw [hl1]; omega,
      List.getD_append _ _ _ _ (by rw [hl2]; omega),
      getD_map_lt _ _ _ _ 0 (by rw [hI2]; omega)]

theorem pattern_row_perm :
    ∀ r < 9, ((List.range 9).map (fun c => pattern r c)).Perm (List.range 9) := by
  decide

theorem pattern_col_perm :
    ∀ c < 9, ((List.range 9).map (fun r => pattern r c)).Perm (List.range 9) := by
  decide

theorem shift_mod_perm :
    ∀ k < 9, ([0, 1, 2].flatMap (fun u =>
      [0, 1, 2].map (fun v => (3 * u + v + k) % 9))).Perm (List.range 9) := by
  decide

theorem pattern_band {g u h v : Nat} (hu : u < 3) :
    pattern (g * 3 + u) (h * 3 + v) = (3 * u + v + (g + 3 * h)) % 9 := by
  unfold pattern
  have e1 : (g * 3 + u) % 3 = u := by omega
  have e2 : (g * 3 + u) / 3 = g := by omega
  rw [e1, e2]
  congr 1
  ring

theorem row_entries_perm {nums : List Nat} (hnl : nums.length = 9) {l : List Nat}
    (hl : l.Perm (List.range 9)) {r : Nat} (hr : r < 9) :
    (l.map (fun c => nums.getD (pattern r c) 0)).Perm nums := by
  have h1 : (l.map (fun c => pattern r c)).Perm ((List.range 9).map (fun c => pattern r c)) :=
    hl.map _
  have h2 := h1.trans (pattern_row_perm r hr)
  have h3 := h2.map (fun k => nums.getD k 0)
  rw [List.map_map] at h3
  have h4 : (List.range 9).map (fun k => nums.getD k 0) = nums := by
    have h5 := map_getD_range nums 0
    rwa [hnl] at h5
  rw [h4] at h3
  exact h3

theorem col_entries_perm {nums : List Nat} (hnl : nums.length = 9) {l : List Nat}
    (hl : l.Perm (List.range 9)) {c : Nat} (hc : c < 9) :
    (l.map (fun r => nums.getD (pattern r c) 0)).Perm nums := by
  have h1 : (l.map (fun r => pattern r c)).Perm ((List.range 9).map (fun r => pattern r c)) :=
    hl.map _
  have h2 := h1.trans (pattern_col_perm c hc)
  have h3 := h2.map (fun k => nums.getD k 0)
  rw [List.map_map] at h3
  have h4 : (List.range 9).map (fun k => nums.getD k 0) = nums := by
    have h5 := map_getD_range nums 0
    rwa [hnl] at h5
  rw [h4] at h3
  exact h3

theorem box_perm_core {nums : List Nat} (hnl : nums.length = 9)
    {U V : List Nat} (hU : U.Perm [0, 1, 2]) (hV : V.Perm [0, 1, 2]) (K : Nat) :
    ((List.range 3).flatMap (fun s => (List.range 3).map (fun t =>
      nums.getD ((3 * U.getD s 0 + V.getD t 0 + K) % 9) 0))).Perm nums := by
  obtain ⟨u0, u1, u2, rfl⟩ := eq_triple_of_length hU.length_eq
  obtain ⟨v0, v1, v2, rfl⟩ := eq_triple_of_length hV.length_eq
  show (([u0, u1, u2].flatMap (fun u => [v0, v1, v2].map (fun v =>
    nums.getD ((3 * u + v + K) % 9) 0)))).Perm nums
  have hsplit : ([u0, u1, u2].flatMap (fun u => [v0, v1, v2].map (fun v =>
      nums.getD ((3 * u + v + K) % 9) 0)))
      = ([u0, u1, u2].flatMap (fun u => [v0, v1, v2].map (fun v =>
          (3 * u + v + K) % 9))).map (fun k => nums.getD k 0) := by
    rw [List.map_flatMap]
    exact flatMap_congr (fun u _ => by rw [List.map_map]; rfl)
  rw [hsplit]
  have hidx : ([u0, u1, u2].flatMap (fun u => [v0, v1, v2].map (fun v =>
      (3 * u + v + K) % 9))).Perm (List.range 9) := by
    have ha : ([u0, u1, u2].flatMap (fun u => [v0, v1, v2].map (fun v =>
        (3 * u + v + K) % 9))).Perm ([0, 1, 2].flatMap (fun u => [v0, v1, v2].map (fun v =>
          (3 * u + v + K) % 9))) := List.Perm.flatMap_right _ hU
    have hb : ([0, 1, 2].flatMap (fun u => [v0, v1, v2].map (fun v =>
        (3 * u + v + K) % 9))).Perm ([0, 1, 2].flatMap (fun u => [0, 1, 2].map (fun v =>
          (3 * u + v + K) % 9))) :=
      List.Perm.flatMap_left _ (fun u _ => hV.map _)
    have hc : ([0, 1, 2].flatMap (fun u => [0, 1, 2].map (fun v =>
        (3 * u + v + K) % 9)))
        = ([0, 1, 2].flatMap (fun u => [0, 1, 2].map (fun v =>
          (3 * u + v + K % 9) % 9))) :=
      flatMap_congr (fun u _ => List.map_congr_left (fun v _ => by omega))
    refine ((ha.trans hb).trans ?_)
    rw [hc]
    exact shift_mod_perm (K % 9) (Nat.mod_lt _ (by norm_num))
  have h3 := hidx.map (fun k => nums.getD k 0)
  have h4 : (List.range 9).map (fun k => nums.getD k 0) = nums := by
    have h5 := map_getD_range nums 0
    rwa [hnl] at h5
  rw [h4] at h3
  exact h3

/-- Claim C1: every grid returned by `generate_sudoku` satisfies the full
Sudoku constraint — each row, each column and each 3×3 box contains every
digit 1..9 exactly once — for every possible outcome of the internal random
shuffles (any band-order and in-band shuffles for rows and columns, any
shuffle of the digit list). -/
theorem generate_sudoku_valid
    (glr : List Nat) (ilr : Nat → List Nat) (glc : List Nat) (ilc : Nat → List Nat)
    (nums : List Nat)
    (hglr : glr.Perm [0, 1, 2]) (hilr : ∀ g ∈ glr, (ilr g).Perm [0, 1, 2])
    (hglc : glc.Perm [0, 1, 2]) (hilc : ∀ g ∈ glc, (ilc g).Perm [0, 1, 2])
    (hnums : nums.Perm digits) :
    validGrid (generate_sudoku glr ilr glc ilc nums) := by
  have hnl : nums.length = 9 := by rw [hnums.length_eq]; rfl
  have hrowsP : (bandShuffle glr ilr).Perm (List.range 9) := bandShuffle_perm hglr hilr
  have hcolsP : (bandShuffle glc ilc).Perm (List.range 9) := bandShuffle_perm hglc hilc
  have hrl : (bandShuffle glr ilr).length = 9 := by
    rw [hrowsP.length_eq, List.length_range]
  have hcl : (bandShuffle glc ilc).length = 9 := by
    rw [hcolsP.length_eq, List.length_range]
  refine ⟨?_, ?_, ?_⟩
  · -- rows
    intro i hi
    have hb : rowOf (generate_sudoku glr ilr glc ilc nums) i
        = (bandShuffle glc ilc).map (fun c =>
            nums.getD (pattern ((bandShuffle glr ilr).getD i 0) c) 0) := by
      unfold rowOf generate_sudoku
      exact getD_map_lt _ _ _ _ 0 (by omega)
    rw [hb]
    exact (row_entries_perm hnl hcolsP (getD_lt_nine hrowsP hi)).trans hnums
  · -- columns
    intro j hj
    have hb : colOf (generate_sudoku glr ilr glc ilc nums) j
        = (List.range 9).map (fun i =>
            nums.getD (pattern ((bandShuffle glr ilr).getD i 0)
              ((bandShuffle glc ilc).getD j 0)) 0) := by
      unfold colOf generate_sudoku
      refine List.map_congr_left (fun i hi => ?_)
      have hi9 : i < 9 := List.mem_range.mp hi
      rw [getD_map_lt _ _ _ _ 0 (by omega), getD_map_lt _ _ _ _ 0 (by omega)]
    rw [hb]
    have h5 : (List.range 9).map (fun i =>
        nums.getD (pattern ((bandShuffle glr ilr).getD i 0)
          ((bandShuffle glc ilc).getD j 0)) 0)
        = (bandShuffle glr ilr).map (fun r =>
            nums.getD (pattern r ((bandShuffle glc ilc).getD j 0)) 0) := by
      have h6 : (List.range 9).map (fun i => (bandShuffle glr ilr).getD i 0)
          = bandShuffle glr ilr := by
        have h7 := map_getD_range (bandShuffle glr ilr) 0
        rwa [hrl] at h7
      rw [← h6, List.map_map]
      rfl
    rw [h5]
    exact (col_entries_perm hnl hrowsP (getD_lt_nine hcolsP hj)).trans hnums
  · -- boxes
    intro bR hbR bC hbC
    obtain ⟨g, hg3, hug, hρ⟩ := bandShuffle_block hglr hilr hbR
    obtain ⟨h, hh3, hvh, hσ⟩ := bandShuffle_block hglc hilc hbC
    have hbox : boxOf (generate_sudoku glr ilr glc ilc nums) bR bC
        = (List.range 3).flatMap (fun s => (List.range 3).map (fun t =>
            nums.getD ((3 * (ilr g).getD s 0 + (ilc h).getD t 0 + (g + 3 * h)) % 9) 0)) := by
      unfold boxOf generate_sudoku
      refine flatMap_congr (fun s hs => ?_)
      have hs3 : s < 3 := List.mem_range.mp hs
      refine List.map_congr_left (fun t ht => ?_)
      have ht3 : t < 3 := List.mem_range.mp ht
      rw [getD_map_lt _ _ _ _ 0 (by omega), getD_map_lt _ _ _ _ 0 (by omega),
        hρ s hs3, hσ t ht3, pattern_band (getD_lt_three hug hs3)]
    rw [hbox]
    exact (box_perm_core hnl hug hvh (g + 3 * h)).trans hnums

/-- Witness for C1: the generator applied to one concrete shuffle outcome
(all shuffles returning the identity order) produces a valid grid. -/
theorem generate_sudoku_valid_witness :
    validGrid (generate_sudoku [0, 1, 2] (fun _ => [0, 1, 2])
      [0, 1, 2] (fun _ => [0, 1, 2]) digits) :=
  generate_sudoku_valid _ _ _ _ _ (by decide) (fun _ _ => by decide)
    (by decide) (fun _ _ => by decide) (List.Perm.refl _)

theorem mem_allCoords : ∀ p : Coord, p ∈ allCoords := by decide

theorem allCoords_length : allCoords.length = 81 := by decide

theorem allCoords_nodup : allCoords.Nodup := by decide

theorem allCoords_map_rmRank : allCoords.map rmRank = List.range 81 := by decide

theorem allCoords_pairwise : allCoords.Pairwise (fun p q => rmRank p < rmRank q) := by
  have h := List.pairwise_lt_range 81
  rw [← allCoords_map_rmRank, List.pairwise_map] at h
  exact h

/-- Claim C3: for every session, every non-fixed coordinate and every digit
`v ∈ [1, 9]`, `attempt_place` stores `v` at the coordinate in all cases;
it reports Correct and leaves `mistakes` unchanged iff `v` equals the
solution value (numeric equality), and otherwise reports Incorrect and
increments `mistakes` by exactly 1. -/
theorem attempt_place_spec (s : GState) (sol : Coord → Nat) (p : Coord) (v : Nat)
    (hsol : s.solution = some sol) (hp : p ∉ s.immutable) (hv1 : 1 ≤ v) (hv9 : v ≤ 9) :
    (attempt_place s p v).1.board p = some v ∧
    ((attempt_place s p v).2 = true ↔ sol p = v) ∧
    (sol p = v → (attempt_place s p v).1.mistakes = s.mistakes) ∧
    (sol p ≠ v → (attempt_place s p v).1.mistakes = s.mistakes + 1) := by
  have hclick : cell_clicked s p = { s with selected := some p } := by
    unfold cell_clicked
    rw [if_neg hp]
  have hivm : ∀ t : GState, t.solution = s.solution → t.immutable = s.immutable →
      is_valid_move t p v = (sol p == v) := by
    intro t h1 h2
    unfold is_valid_move
    rw [h1, hsol, h2]
    show (if p ∈ s.immutable then false else sol p == v) = (sol p == v)
    exact if_neg hp
  unfold attempt_place
  rw [hclick]
  simp only [number_clicked]
  have hivmA := hivm { s with selected := some p } rfl rfl
  have hivmB := hivm
    { s with selected := some p
             is_error := Function.update s.is_error p false
             is_hint := Function.update s.is_hint p false } rfl rfl
  rw [hivmA, hivmB]
  by_cases hc : sol p = v
  · have hbeq : (sol p == v) = true := by simp [hc]
    rw [hbeq]
    refine ⟨?_, by simp [hc], fun _ => ?_, fun hne => absurd hc hne⟩
    · simp only [if_true]
      split <;> simp [Function.update_same]
    · simp only [if_true]
      split <;> rfl
  · have hbeq : (sol p == v) = false := by simp [hc]
    rw [hbeq]
    refine ⟨?_, by simp [hc], fun he => absurd he hc, fun _ => ?_⟩
    · simp only [Bool.false_eq_true, if_false]
      split <;> simp [Function.update_same]
    · simp only [Bool.false_eq_true, if_false]
      split <;> rfl

/-- Witness for C3: in the sample session, placing the correct digit at the
masked cell `(0, 0)` stores it, reports Correct and keeps `mistakes` at 0. -/
theorem attempt_place_spec_witness :
    (attempt_place sampleState (0, 0) 1).1.board (0, 0) = some 1 ∧
    ((attempt_place sampleState (0, 0) 1).2 = true ↔ sampleSol (0, 0) = 1) ∧
    (sampleSol (0, 0) = 1 → (attempt_place sampleState (0, 0) 1).1.mistakes = sampleState.mistakes) ∧
    (sampleSol (0, 0) ≠ 1 → (attempt_place sampleState (0, 0) 1).1.mistakes = sampleState.mistakes + 1) :=
  attempt_place_spec sampleState sampleSol (0, 0) 1 rfl (by decide) (by decide) (by decide)

/-- Claim C7: calling `attempt_place` on a fixed coordinate is rejected at
the call site with no engine-state change: the board is not written, neither
`mistakes` nor `hints_used` changes, and the outcome is not Correct.
(Out-of-range coordinates are unrepresentable: every cell widget carries a
row and column in `[0, 8]`, so the calling layer never issues such calls.) -/
theorem attempt_place_fixed (s : GState) (p : Coord) (v : Nat) (hp : p ∈ s.immutable) :
    (attempt_place s p v).1.board = s.board ∧
    (attempt_place s p v).1.mistakes = s.mistakes ∧
    (attempt_place s p v).1.hints_used = s.hints_used ∧
    (attempt_place s p v).2 = false := by
  have hclick : cell_clicked s p = { s with selected := none } := by
    unfold cell_clicked
    rw [if_pos hp]
  unfold attempt_place
  rw [hclick]
  refine ⟨rfl, rfl, rfl, ?_⟩
  unfold is_valid_move
  show (match s.solution with
    | none => false
    | some sol => if p ∈ s.immutable then false else sol p == v) = false
  cases s.solution with
  | none => rfl
  | some sol => exact if_pos hp

/-- Witness for C7: clicking the fixed cell `(0, 1)` of the sample session
and pressing 5 changes nothing. -/
theorem attempt_place_fixed_witness :
    (attempt_place sampleState (0, 1) 5).1.board = sampleState.board ∧
    (attempt_place sampleState (0, 1) 5).1.mistakes = sampleState.mistakes ∧
    (attempt_place sampleState (0, 1) 5).1.hints_used = sampleState.hints_used ∧
    (attempt_place sampleState (0, 1) 5).2 = false :=
  attempt_place_fixed sampleState (0, 1) 5 (by decide)

/-- Counterexample to C6 as stated: `create_game_board` clamps the request
only to `min(empty_cells, 81)`, not to `[20, 60]`.  Requesting 81 empty
cells (the sample being necessarily all 81 coordinates) masks all 81 cells
and leaves 0 fixed cells, not at least 21. -/
theorem create_game_board_81_masks_all :
    allCoords.Nodup ∧ allCoords.length = min 81 81 ∧
    (create_game_board sampleSol allCoords 81).immutable.card = 0 ∧
    ¬ 21 ≤ (create_game_board sampleSol allCoords 81).immutable.card := by
  have hempty : (create_game_board sampleSol allCoords 81).immutable = (∅ : Finset Coord) := by
    show Finset.univ \ allCoords.toFinset = ∅
    ext p
    simp [List.mem_toFinset, mem_allCoords p]
  refine ⟨allCoords_nodup, by decide, ?_, ?_⟩
  · rw [hempty]; rfl
  · rw [hempty]; decide

/-- Claim C6, amended: session creation clamps the requested `empty_cells`
only to at most 81 (`min(empty_cells, 81)`), not to `[20, 60]` — a request of
81 masks all 81 cells and leaves 0 fixed cells.  It does not fail on
out-of-range requests, and for every request, `min(empty_cells, 81)` distinct
coordinates are masked and the fixed set is the exact complement of the mask
within the 81 coordinates; in particular a request already in `[20, 60]`
masks exactly that many cells and leaves `81 - empty_cells ≥ 21` fixed
cells. -/
theorem create_game_board_mask (sol : Coord → Nat) (mask : List Coord) (ec : Nat)
    (hnd : mask.Nodup) (hlen : mask.length = min ec 81) :
    mask.toFinset.card = min ec 81 ∧
    (create_game_board sol mask ec).immutable = Finset.univ \ mask.toFinset ∧
    (create_game_board sol mask ec).immutable.card = 81 - min ec 81 ∧
    (20 ≤ ec → ec ≤ 60 →
      mask.toFinset.card = ec ∧
        (create_game_board sol mask ec).immutable.card = 81 - ec ∧
        21 ≤ (create_game_board sol mask ec).immutable.card) := by
  have hcard : mask.toFinset.card = min ec 81 := by
    rw [List.toFinset_card_of_nodup hnd, hlen]
  have huniv : (Finset.univ : Finset Coord).card = 81 := by
    rw [Finset.card_univ]
    simp
  have hicard : (create_game_board sol mask ec).immutable.card = 81 - min ec 81 := by
    show (Finset.univ \ mask.toFinset).card = 81 - min ec 81
    rw [Finset.card_sdiff (Finset.subset_univ _), huniv, hcard]
  refine ⟨hcard, rfl, hicard, fun h20 h60 => ?_⟩
  have hmin : min ec 81 = ec := by omega
  rw [hmin] at hcard hicard
  exact ⟨hcard, hicard, by omega⟩

/-- Witness for C6 (amended): the sample session masks exactly one cell and
leaves 80 fixed cells. -/
theorem create_game_board_mask_witness :
    sampleMask.toFinset.card = min 1 81 ∧
    (create_game_board sampleSol sampleMask 1).immutable = Finset.univ \ sampleMask.toFinset ∧
    (create_game_board sampleSol sampleMask 1).immutable.card = 81 - min 1 81 ∧
    (20 ≤ 1 → 1 ≤ 60 →
      sampleMask.toFinset.card = 1 ∧
        (create_game_board sampleSol sampleMask 1).immutable.card = 81 - 1 ∧
        21 ≤ (create_game_board sampleSol sampleMask 1).immutable.card) :=
  create_game_board_mask sampleSol sampleMask 1 (by decide) (by decide)

/-- Counterexample to C9 as stated: loading a payload missing `game_board`
into the sample session fails, but the active session is not left entirely
unchanged — its solution grid has already been overwritten (here with
`None`) before the missing-field check runs. -/
theorem load_missing_board_mutates :
    (load_game sampleState missingBoardPayload).1 = false ∧
    (load_game sampleState missingBoardPayload).2.solution = none ∧
    sampleState.solution ≠ none := by
  refine ⟨rfl, rfl, ?_⟩
  intro h
  exact Option.noConfusion h

/-- Claim C9, amended: loading a payload missing the mandatory board field
fails with a user-visible fatal error and leaves every field of the active
session unchanged except the solution grid, which has already been
overwritten with the payload's `solution_board` before the check runs. -/
theorem load_missing_board (s : GState) (d : SaveData) (h : d.game_board = none) :
    (load_game s d).1 = false ∧
    (load_game s d).2 = { s with solution := d.solution_board.map (ofRows 0) } := by
  unfold load_game
  rw [h]
  exact ⟨rfl, rfl⟩

/-- Witness for C9 (amended): loading the concrete missing-board payload into
the sample session. -/
theorem load_missing_board_witness :
    (load_game sampleState missingBoardPayload).1 = false ∧
    (load_game sampleState missingBoardPayload).2
      = { sampleState with solution := missingBoardPayload.solution_board.map (ofRows 0) } :=
  load_missing_board sampleState missingBoardPayload rfl

/-- Claim C4: for every session state (with its solution grid present and the
fixed-cell invariant holding, as every reachable session state has),
`_is_fully_solved` is true iff the incorrect-cell list of `check_solution` is
empty and `get_filled_count` is 81. -/
theorem is_solved_iff_check (s : GState) (sol : Coord → Nat)
    (hsol : s.solution = some sol)
    (hfix : ∀ p ∈ s.immutable, s.board p = solAt s p) :
    _is_fully_solved s = true ↔
      (check_incorrect s sol = [] ∧ get_filled_count s = 81) := by
  have hfs : _is_fully_solved s = allCoords.all (fun p => str_cell_eq (s.board p) (sol p)) := by
    unfold _is_fully_solved
    rw [hsol]
  rw [hfs]
  constructor
  · intro h
    have hall := List.all_eq_true.mp h
    constructor
    · rw [check_incorrect, List.filter_eq_nil_iff]
      intro p hp
      simp [hall p hp]
    · rw [get_filled_count, ← allCoords_length]
      rw [List.countP_eq_length]
      intro p hp
      have h2 := hall p hp
      unfold str_cell_eq at h2
      cases hb : s.board p with
      | none => rw [hb] at h2; simp at h2
      | some m => simp
  · rintro ⟨hchk, _⟩
    apply List.all_eq_true.mpr
    intro p hp
    by_cases hpi : p ∈ s.immutable
    · have h2 := hfix p hpi
      unfold solAt at h2
      rw [hsol] at h2
      simp at h2
      simp [str_cell_eq, h2]
    · have h2 := List.filter_eq_nil_iff.mp (by rw [check_incorrect] at hchk; exact hchk) p hp
      simp [hpi] at h2
      exact h2

/-- Witness for C4: the equivalence instantiated at the sample session. -/
theorem is_solved_iff_check_witness :
    _is_fully_solved sampleState = true ↔
      (check_incorrect sampleState sampleSol = [] ∧ get_filled_count sampleState = 81) :=
  is_solved_iff_check sampleState sampleSol rfl (by decide)

theorem find?_split {α : Type} (pred : α → Bool) :
    ∀ (l : List α) (a : α), l.find? pred = some a →
      ∃ l1 l2, l = l1 ++ a :: l2 ∧ (∀ b ∈ l1, pred b = false) ∧ pred a = true := by
  intro l
  induction l with
  | nil => intro a h; simp [List.find?] at h
  | cons x xs ih =>
    intro a h
    by_cases hx : pred x = true
    · rw [List.find?_cons_of_pos _ hx] at h
      injection h with h
      subst h
      exact ⟨[], xs, rfl, by simp, hx⟩
    · rw [List.find?_cons_of_neg _ hx] at h
      obtain ⟨l1, l2, heq, hl1, ha⟩ := ih a h
      refine ⟨x :: l1, l2, by rw [heq, List.cons_append], ?_, ha⟩
      intro b hb
      rcases List.mem_cons.mp hb with rfl | hb2
      · simp at hx
        exact hx
      · exact hl1 b hb2

/-- The scan of `get_hint` returns the first empty cell in row-major order,
paired with the solution value there. -/
theorem get_hint_first {board : Coord → Option Nat} {sol : Coord → Nat} {p : Coord} {v : Nat}
    (h : get_hint board sol = some (p, v)) :
    v = sol p ∧ board p = none ∧ ∀ q : Coord, rmRank q < rmRank p → board q ≠ none := by
  unfold get_hint at h
  cases hf : allCoords.find? (fun q => (board q).isNone) with
  | none => rw [hf] at h; simp at h
  | some q =>
    rw [hf] at h
    have h2 : some (q, sol q) = some (p, v) := h
    injection h2 with h3
    injection h3 with h4 h5
    subst h4
    subst h5
    obtain ⟨l1, l2, heq, hl1, hq⟩ := find?_split _ allCoords q hf
    have hqn : board q = none := by
      simpa [Option.isNone_iff_eq_none] using hq
    refine ⟨rfl, hqn, ?_⟩
    have hpw := allCoords_pairwise
    rw [heq, List.pairwise_append] at hpw
    obtain ⟨_, hpw2, _⟩ := hpw
    rw [List.pairwise_cons] at hpw2
    obtain ⟨hq_lt, _⟩ := hpw2
    intro r hrlt hrnone
    have hrmem : r ∈ allCoords := mem_allCoords r
    rw [heq] at hrmem
    rcases List.mem_append.mp hrmem with hr1 | hr2
    · have h3 := hl1 r hr1
      rw [hrnone] at h3
      simp at h3
    · rcases List.mem_cons.mp hr2 with rfl | hr3
      · omega
      · have h4 := hq_lt r hr3
        omega

/-- Claim C5: for every session, `show_hint` with no cell selected scans the
coordinates in row-major order, reveals the first empty cell with the
solution value at that coordinate and increments `hints_used` by exactly 1;
if no empty cell remains it is a no-op (in particular `hints_used` is not
incremented). -/
theorem show_hint_spec (s : GState) (sol : Coord → Nat)
    (hsol : s.solution = some sol) (hsel : s.selected = none) :
    (∀ p v, get_hint s.board sol = some (p, v) →
      v = sol p ∧ s.board p = none ∧
      (∀ q : Coord, rmRank q < rmRank p → s.board q ≠ none) ∧
      (show_hint s).board p = some (sol p) ∧
      (show_hint s).hints_used = s.hints_used + 1) ∧
    (get_hint s.board sol = none → show_hint s = s) := by
  have hsh : show_hint s = (match get_hint s.board sol with
      | some (p, _) => { place_hint s sol p with selected := some p }
      | none => s) := by
    unfold show_hint
    rw [hsol, hsel]
  constructor
  · intro p v hg
    obtain ⟨hv, hbn, hfirst⟩ := get_hint_first hg
    rw [hsh, hg]
    refine ⟨hv, hbn, hfirst, ?_, rfl⟩
    show Function.update s.board p (some (sol p)) p = some (sol p)
    simp [Function.update_same]
  · intro hg
    rw [hsh, hg]

/-- Witness for C5: the hint applied to the sample session (no selected
cell, cell (0,0) empty). -/
theorem show_hint_spec_witness :
    (∀ p v, get_hint sampleState.board sampleSol = some (p, v) →
      v = sampleSol p ∧ sampleState.board p = none ∧
      (∀ q : Coord, rmRank q < rmRank p → sampleState.board q ≠ none) ∧
      (show_hint sampleState).board p = some (sampleSol p) ∧
      (show_hint sampleState).hints_used = sampleState.hints_used + 1) ∧
    (get_hint sampleState.board sampleSol = none → show_hint sampleState = sampleState) :=
  show_hint_spec sampleState sampleSol rfl rfl

theorem SessionInv_click (s : GState) (p : Coord) (h : SessionInv s) :
    SessionInv (cell_clicked s p) := by
  obtain ⟨hsol, hfix, _⟩ := h
  unfold cell_clicked
  split
  · exact ⟨hsol, hfix, fun q hq => Option.noConfusion hq⟩
  · next hnp =>
    refine ⟨hsol, hfix, fun q hq => ?_⟩
    have h2 : p = q := by injection hq
    exact h2 ▸ hnp

theorem number_clicked_none_eq (s : GState) (hsel : s.selected = none) (n : Option Nat) :
    number_clicked s n = s := by
  unfold number_clicked
  rw [hsel]

theorem number_clicked_some_eq (s : GState) (p : Coord) (hsel : s.selected = some p)
    (n : Option Nat) :
    number_clicked s n =
      if _is_fully_solved (nc_core s p n) = true
      then { nc_core s p n with is_timer_running := false }
      else nc_core s p n := by
  unfold number_clicked
  nth_rewrite 1 [hsel]
  cases n <;> rfl

theorem SessionInv_num (s : GState) (n : Option Nat) (h : SessionInv s) :
    SessionInv (number_clicked s n) := by
  obtain ⟨hsol, hfix, hselok⟩ := h
  cases hsel : s.selected with
  | none =>
    rw [number_clicked_none_eq s hsel n]
    exact ⟨hsol, hfix, hselok⟩
  | some p =>
    rw [number_clicked_some_eq s p hsel n]
    have hpni : p ∉ s.immutable := hselok p hsel
    have key : ∀ t : GState, t.solution = s.solution → t.immutable = s.immutable →
        t.selected = some p → (∀ q, q ≠ p → t.board q = s.board q) → SessionInv t := by
      intro t h1 h2 h3 h4
      refine ⟨by rw [h1]; exact hsol, ?_, ?_⟩
      · intro q hq
        rw [h2] at hq
        have hqp : q ≠ p := fun he => hpni (he ▸ hq)
        rw [h4 q hqp]
        show s.board q = solAt t q
        unfold solAt
        rw [h1]
        exact hfix q hq
      · intro q hq
        rw [h3] at hq
        have h5 : p = q := by injection hq
        rw [h2]
        exact h5 ▸ hpni
    cases n with
    | none =>
      simp only [nc_core]
      split <;>
        (apply key <;>
          first
            | rfl
            | exact hsel
            | (intro q hq; exact Function.update_noteq hq _ _))
    | some v =>
      simp only [nc_core]
      split <;> split <;>
        (apply key <;>
          first
            | rfl
            | exact hsel
            | (intro q hq; exact Function.update_noteq hq _ _))

theorem show_hint_eq (s : GState) (sol : Coord → Nat) (hsol : s.solution = some sol) :
    show_hint s = (match s.selected with
      | some p =>
        if (s.board p).isNone = true then place_hint s sol p
        else (match get_hint s.board sol with
          | some (q, _) => { place_hint s sol q with selected := some q }
          | none => s)
      | none => (match get_hint s.board sol with
          | some (q, _) => { place_hint s sol q with selected := some q }
          | none => s)) := by
  unfold show_hint
  rw [hsol]

theorem SessionInv_hint (s : GState) (h : SessionInv s) :
    SessionInv (show_hint s) := by
  obtain ⟨hsolsome, hfix, hselok⟩ := h
  obtain ⟨sol, hsol⟩ := Option.isSome_iff_exists.mp hsolsome
  have hplaceFix : ∀ (p q : Coord), q ∈ s.immutable →
      Function.update s.board p (some (sol p)) q = solAt s q := by
    intro p q hq
    by_cases hqp : q = p
    · subst hqp
      rw [Function.update_same]
      unfold solAt
      rw [hsol]
      rfl
    · rw [Function.update_noteq hqp]
      exact hfix q hq
  have scan_case : SessionInv (match get_hint s.board sol with
      | some (q, _) => { place_hint s sol q with selected := some q }
      | none => s) := by
    cases hg : get_hint s.board sol with
    | none => exact ⟨hsolsome, hfix, hselok⟩
    | some pv =>
      obtain ⟨q, v⟩ := pv
      obtain ⟨hv, hbn, _⟩ := get_hint_first hg
      have hqni : q ∉ s.immutable := by
        intro hq
        have h5 := hfix q hq
        unfold solAt at h5
        rw [hsol, hbn] at h5
        exact Option.noConfusion h5
      refine ⟨hsolsome, ?_, ?_⟩
      · intro r hr
        exact hplaceFix q r hr
      · intro r hr
        have h5 : q = r := by injection hr
        exact h5 ▸ hqni
  rw [show_hint_eq s sol hsol]
  cases hsel : s.selected with
  | some p =>
    show SessionInv (if (s.board p).isNone = true then place_hint s sol p
      else (match get_hint s.board sol with
        | some (q, _) => { place_hint s sol q with selected := some q }
        | none => s))
    split
    · refine ⟨hsolsome, ?_, ?_⟩
      · intro q hq
        exact hplaceFix p q hq
      · intro q hq
        exact hselok q hq
    · exact scan_case
  | none =>
    show SessionInv (match get_hint s.board sol with
      | some (q, _) => { place_hint s sol q with selected := some q }
      | none => s)
    exact scan_case

theorem SessionInv_step (s : GState) (op : Op) (h : SessionInv s) :
    SessionInv (step s op) := by
  cases op with
  | click p => exact SessionInv_click s p h
  | num v => exact SessionInv_num s v h
  | hint => exact SessionInv_hint s h

theorem SessionInv_run (s : GState) (ops : List Op) (h : SessionInv s) :
    SessionInv (run s ops) := by
  induction ops generalizing s with
  | nil => exact h
  | cons op ops ih => exact ih (step s op) (SessionInv_step s op h)

/-- Claim C2: for every session and every finite sequence of click /
number / hint interactions applied to it, every coordinate that is still in
the fixed set afterwards has its board value equal to the solution's value
at that coordinate. -/
theorem fixed_cells_preserved (s : GState) (ops : List Op) (h : SessionInv s) :
    ∀ p ∈ (run s ops).immutable, (run s ops).board p = solAt (run s ops) p :=
  (SessionInv_run s ops h).2.1

/-- Witness for C2: after a concrete interaction sequence (click the free
cell, place a wrong digit, then take a hint) on the sample session, the
fixed cell `(0, 1)` still carries the solution value. -/
theorem fixed_cells_preserved_witness :
    ((0, 1) : Coord) ∈ (run sampleState [Op.click (0, 0), Op.num (some 5), Op.hint]).immutable ∧
      (run sampleState [Op.click (0, 0), Op.num (some 5), Op.hint]).board (0, 1)
        = solAt (run sampleState [Op.click (0, 0), Op.num (some 5), Op.hint]) (0, 1) :=
  ⟨by decide,
    fixed_cells_preserved sampleState [Op.click (0, 0), Op.num (some 5), Op.hint]
      ⟨rfl, by decide, by decide⟩ (0, 1) (by decide)⟩

theorem show_hint_none_eq (s : GState) (hsol : s.solution = none) : show_hint s = s := by
  unfold show_hint
  rw [hsol]

theorem show_hint_sel_empty_eq (s : GState) (sol : Coord → Nat) (p : Coord)
    (hsol : s.solution = some sol) (hsel : s.selected = some p)
    (hb : (s.board p).isNone = true) : show_hint s = place_hint s sol p := by
  rw [show_hint_eq s sol hsol, hsel]
  show (if (s.board p).isNone = true then place_hint s sol p
    else (match get_hint s.board sol with
      | some (q, _) => { place_hint s sol q with selected := some q }
      | none => s)) = place_hint s sol p
  rw [if_pos hb]

theorem show_hint_sel_filled_eq (s : GState) (sol : Coord → Nat) (p : Coord)
    (hsol : s.solution = some sol) (hsel : s.selected = some p)
    (hb : (s.board p).isNone = false) :
    show_hint s = (match get_hint s.board sol with
      | some (q, _) => { place_hint s sol q with selected := some q }
      | none => s) := by
  rw [show_hint_eq s sol hsol, hsel]
  show (if (s.board p).isNone = true then place_hint s sol p
    else (match get_hint s.board sol with
      | some (q, _) => { place_hint s sol q with selected := some q }
      | none => s)) = _
  rw [hb]
  simp

theorem show_hint_nosel_eq (s : GState) (sol : Coord → Nat)
    (hsol : s.solution = some sol) (hsel : s.selected = none) :
    show_hint s = (match get_hint s.board sol with
      | some (q, _) => { place_hint s sol q with selected := some q }
      | none => s) := by
  rw [show_hint_eq s sol hsol, hsel]

theorem nc_core_mistakes (s : GState) (p : Coord) (n : Option Nat) (k : Nat) :
    nc_core { s with mistakes := k } p n
      = { nc_core s p n with mistakes := k + ((nc_core s p n).mistakes - s.mistakes) } := by
  cases n with
  | none =>
    simp only [nc_core]
    simp [Nat.sub_self]
  | some v =>
    simp only [nc_core]
    have hivm : is_valid_move { s with mistakes := k } p v = is_valid_move s p v := rfl
    rw [hivm]
    split <;> simp [Nat.sub_self, Nat.add_sub_cancel_left]

theorem step_mistakes_shift (op : Op) (s : GState) (k : Nat) :
    step { s with mistakes := k } op
      = { step s op with mistakes := k + ((step s op).mistakes - s.mistakes) } := by
  cases op with
  | click p =>
    show cell_clicked { s with mistakes := k } p
      = { cell_clicked s p with mistakes := k + ((cell_clicked s p).mistakes - s.mistakes) }
    unfold cell_clicked
    by_cases hp : p ∈ s.immutable
    · rw [if_pos hp, if_pos hp]
      simp [Nat.sub_self]
    · rw [if_neg hp, if_neg hp]
      simp [Nat.sub_self]
  | num n =>
    show number_clicked { s with mistakes := k } n
      = { number_clicked s n with mistakes := k + ((number_clicked s n).mistakes - s.mistakes) }
    obtain ⟨sel, hsel⟩ : ∃ x, s.selected = x := ⟨_, rfl⟩
    cases sel with
    | none =>
      rw [number_clicked_none_eq { s with mistakes := k } hsel n,
        number_clicked_none_eq s hsel n]
      simp [Nat.sub_self]
    | some p =>
      rw [number_clicked_some_eq { s with mistakes := k } p hsel n,
        number_clicked_some_eq s p hsel n, nc_core_mistakes]
      have hfs : _is_fully_solved { nc_core s p n
          with mistakes := k + ((nc_core s p n).mistakes - s.mistakes) }
          = _is_fully_solved (nc_core s p n) := rfl
      rw [hfs]
      split <;> rfl
  | hint =>
    show show_hint { s with mistakes := k }
      = { show_hint s with mistakes := k + ((show_hint s).mistakes - s.mistakes) }
    obtain ⟨solv, hsolo⟩ : ∃ x, s.solution = x := ⟨_, rfl⟩
    cases solv with
    | none =>
      rw [show_hint_none_eq { s with mistakes := k } hsolo, show_hint_none_eq s hsolo]
      simp [Nat.sub_self]
    | some sol =>
      obtain ⟨sel, hsel⟩ : ∃ x, s.selected = x := ⟨_, rfl⟩
      cases sel with
      | some p =>
        by_cases hb : (s.board p).isNone = true
        · rw [show_hint_sel_empty_eq s sol p hsolo hsel hb,
            show_hint_sel_empty_eq { s with mistakes := k } sol p hsolo hsel hb]
          simp [place_hint, Nat.sub_self]
        · have hb2 : (s.board p).isNone = false := by
            simp only [Bool.not_eq_true] at hb
            exact hb
          rw [show_hint_sel_filled_eq s sol p hsolo hsel hb2,
            show_hint_sel_filled_eq { s with mistakes := k } sol p hsolo hsel hb2]
          obtain ⟨gh, hg⟩ : ∃ x, get_hint s.board sol = x := ⟨_, rfl⟩
          rw [hg]
          cases gh with
          | none => simp [Nat.sub_self]
          | some pv =>
            obtain ⟨q, v⟩ := pv
            simp [place_hint, Nat.sub_self]
      | none =>
        rw [show_hint_nosel_eq s sol hsolo hsel,
          show_hint_nosel_eq { s with mistakes := k } sol hsolo hsel]
        obtain ⟨gh, hg⟩ : ∃ x, get_hint s.board sol = x := ⟨_, rfl⟩
        rw [hg]
        cases gh with
        | none => simp [Nat.sub_self]
        | some pv =>
          obtain ⟨q, v⟩ := pv
          simp [place_hint, Nat.sub_self]

/-- Claim C10: the session carries a mistake limit of 5 (`max_mistakes`)
that the engine never enforces: the effect of every click / number / hint
interaction is entirely independent of the current `mistakes` count (in
particular of whether it has reached 5) — the successor state is the same
except that the mistake counter starts from the given value, so reaching
the limit only triggers a warning display and blocks no further play. -/
theorem mistake_limit_unenforced :
    max_mistakes = 5 ∧
    ∀ (op : Op) (s : GState) (k : Nat),
      step { s with mistakes := k } op
        = { step s op with mistakes := k + ((step s op).mistakes - s.mistakes) } :=
  ⟨rfl, fun op s k => step_mistakes_shift op s k⟩

theorem finRange_getElem_eq (r : Fin 9) (h : r.val < (List.finRange 9).length) :
    (List.finRange 9)[r.val] = r := by
  rw [List.getElem_finRange]
  ext
  simp

theorem ofRows_toRows {α : Type} (d : α) (f : Coord → α) : ofRows d (toRows f) = f := by
  funext p
  obtain ⟨r, c⟩ := p
  unfold ofRows toRows
  have h1 : ((List.finRange 9).map (fun x => (List.finRange 9).map (fun y => f (x, y)))).getD r.val []
      = (List.finRange 9).map (fun y => f (r, y)) := by
    rw [List.getD_eq_getElem _ _ (by simp [r.isLt]), List.getElem_map,
      finRange_getElem_eq r (by simp [r.isLt])]
  rw [h1, List.getD_eq_getElem _ _ (by simp [c.isLt]), List.getElem_map,
    finRange_getElem_eq c (by simp [c.isLt])]

theorem filterMap_some_eq {α : Type} (l : List α) : l.filterMap some = l := by
  induction l with
  | nil => rfl
  | cons a t ih => simp [List.filterMap_cons, ih]

theorem decode_sorted (S : Finset Coord) :
    (sorted_immutable S).filterMap decodeCoord = allCoords.filter (fun p => p ∈ S) := by
  unfold sorted_immutable
  rw [List.filterMap_map]
  have h1 : (decodeCoord ∘ fun p : Coord => (p.1.val, p.2.val)) = fun p : Coord => some p := by
    funext p
    show decodeCoord (p.1.val, p.2.val) = some p
    unfold decodeCoord
    rw [dif_pos ⟨p.1.isLt, p.2.isLt⟩]
  rw [h1]
  exact filterMap_some_eq _

theorem toFinset_filter_mem (S : Finset Coord) :
    (allCoords.filter (fun p => p ∈ S)).toFinset = S := by
  ext p
  simp [List.mem_toFinset, List.mem_filter, mem_allCoords p]

/-- Claim C8: deserializing a payload produced by `save_game` (into any
active session) and re-serializing, with no intervening mutation, yields a
field-for-field identical payload — in particular the board contents, the
sorted fixed-coordinate list, `mistakes`, `hints_used` and the per-cell
`is_error` / `is_hint` flags are reproduced exactly. -/
theorem save_load_save (t s : GState) :
    save_game (load_game t (save_game s)).2 = save_game s := by
  have h1 : (load_game t (save_game s)).2 = ({ t with
      solution := (s.solution.map (fun sol => toRows sol)).map (ofRows 0)
      board := ofRows none (toRows s.board)
      immutable := ((sorted_immutable s.immutable).filterMap decodeCoord).toFinset
      mistakes := s.mistakes
      hints_used := s.hints_used
      empty_cells := s.empty_cells
      seconds := s.seconds
      is_timer_running := s.is_timer_running
      selected := none
      is_error := fun p => (meta_flags (some (toRows (fun q => (s.is_error q, s.is_hint q)))) p).1
      is_hint := fun p => (meta_flags (some (toRows (fun q => (s.is_error q, s.is_hint q)))) p).2 }
      : GState) := rfl
  have hsol : ((s.solution.map (fun sol => toRows sol)).map (ofRows 0)).map (fun sol => toRows sol)
      = s.solution.map (fun sol => toRows sol) := by
    cases s.solution with
    | none => rfl
    | some sol => simp [ofRows_toRows]
  have hboard : ofRows (none : Option Nat) (toRows s.board) = s.board := ofRows_toRows none s.board
  have himm : ((sorted_immutable s.immutable).filterMap decodeCoord).toFinset = s.immutable := by
    rw [decode_sorted, toFinset_filter_mem]
  have herr : (fun p => (meta_flags (some (toRows (fun q => (s.is_error q, s.is_hint q)))) p).1)
      = s.is_error := by
    funext p
    show ((ofRows (false, false) (toRows (fun q => (s.is_error q, s.is_hint q)))) p).1
      = s.is_error p
    rw [ofRows_toRows]
  have hhint : (fun p => (meta_flags (some (toRows (fun q => (s.is_error q, s.is_hint q)))) p).2)
      = s.is_hint := by
    funext p
    show ((ofRows (false, false) (toRows (fun q => (s.is_error q, s.is_hint q)))) p).2
      = s.is_hint p
    rw [ofRows_toRows]
  have hsol2 : Option.map ((fun sol => toRows sol) ∘ ofRows 0 ∘ fun sol => toRows sol) s.solution
      = Option.map (fun sol => toRows sol) s.solution := by
    cases s.solution with
    | none => rfl
    | some sol => simp [Function.comp, ofRows_toRows]
  have hmeta : (fun p => meta_flags (some (toRows (fun q => (s.is_error q, s.is_hint q)))) p)
      = (fun q => (s.is_error q, s.is_hint q)) := by
    funext p
    show ofRows (false, false) (toRows (fun q => (s.is_error q, s.is_hint q))) p
      = (s.is_error p, s.is_hint p)
    rw [ofRows_toRows]
  rw [h1]
  simp [save_game, hsol, hsol2, hboard, himm, herr, hhint, hmeta]
